import Mathlib

/-!
Shallow embedding of `src/isnad2network/generate_json_network_isnad.py`:
the transmission-term classifier, the cell analyzer, the network (graph)
assembler `generate_network_data`, the chain-length comparison
`compare_chain_lengths`, the dimension check / record filtering of
`process_isnad_network`, and the cell-analysis pass of
`IsnadAnalyzer.analyze_all_cells`.  Strings are modelled as Lean `String`
(sequences of unicode code points), tables as lists of association-list
rows with an explicit column list, pandas NA as `Option.none`.
-/

namespace Isnad

/-! ## Character-level string utilities (kernel-computable models of the
Python string operations used by the source). -/

/-- Model of Python `str.strip()` on a code-point list. -/
def trimChars (l : List Char) : List Char :=
  ((l.dropWhile Char.isWhitespace).reverse.dropWhile Char.isWhitespace).reverse

/-- Model of Python `str.strip()`. -/
def strTrim (s : String) : String := String.mk (trimChars s.data)

/-- Model of `text.replace('،', ',')` (the pattern is a single character). -/
def replaceArabComma (l : List Char) : List Char :=
  l.map (fun c => if c == '،' then ',' else c)

/-- Model of Python `str.split(',')` (keeps empty chunks). -/
def splitCommaAux : List Char → List Char → List (List Char)
  | [], acc => [acc.reverse]
  | c :: rest, acc =>
    if c == ',' then acc.reverse :: splitCommaAux rest []
    else splitCommaAux rest (c :: acc)

/-- Does `p` begin the list `s`? -/
def beginsWith : List Char → List Char → Bool
  | _, [] => true
  | [], _ :: _ => false
  | c :: cs, p :: ps => c == p && beginsWith cs ps

/-- Does `pat` occur somewhere in `s`? -/
def containsAux : List Char → List Char → Bool
  | [], pat => pat.isEmpty
  | c :: rest, pat => beginsWith (c :: rest) pat || containsAux rest pat

/-- Model of Python `pat in s` (substring containment). -/
def containsSub (s pat : String) : Bool := containsAux s.data pat.data

/-- Model of Python `col.startswith('t')`. -/
def startsWithT (c : String) : Bool :=
  match c.data with
  | c0 :: _ => c0 == 't'
  | [] => false

/-- Lexicographic order on code-point lists (Python string comparison). -/
def charListLe : List Char → List Char → Bool
  | [], _ => true
  | _ :: _, [] => false
  | a :: ta, b :: tb => if a == b then charListLe ta tb else decide (a.toNat < b.toNat)

def strLe (a b : String) : Bool := charListLe a.data b.data

/-- Insert into a `strLe`-sorted list. -/
def insertSorted (c : String) : List String → List String
  | [] => [c]
  | d :: rest => if strLe c d then c :: d :: rest else d :: insertSorted c rest

/-- Model of Python `sorted` on a list of strings. -/
def sortCols : List String → List String
  | [] => []
  | c :: rest => insertSorted c (sortCols rest)

/-! ## Term classifier (`TransmissionTerm`, lines 33-85). -/

/-- The fixed riwayah-indicator lexicon (line 62). -/
def riwayahIndicators : List String := ["حدثنا", "أخبرنا", "سمعت", "عن", "روى"]

/-- The fixed tilawah-indicator lexicon (line 63). -/
def tilawahIndicators : List String := ["قرأت", "قرأ", "تلا"]

structure TransmissionTerm where
  original_text : String
  terms : List String
  primary_classification : String
deriving Repr, DecidableEq

/-- `_extract_terms` (lines 47-54): split on comma variants, strip,
drop empties. -/
def extractTerms (text : String) : List String :=
  ((splitCommaAux (replaceArabComma text.data) []).map
    (fun cs => String.mk (trimChars cs))).filter (fun t => t != "")

def hasRiwayah (text : String) : Bool :=
  riwayahIndicators.any (fun ri => containsSub text ri)

def hasTilawah (text : String) : Bool :=
  tilawahIndicators.any (fun ti => containsSub text ti)

/-- `_classify` (lines 56-77); when `terms` is empty the classification
stays at its initial value `"unknown"`. -/
def classifyTerms (original_text : String) (terms : List String) : String :=
  if terms.isEmpty then "unknown"
  else if hasRiwayah original_text && hasTilawah original_text then "mixed"
  else if hasRiwayah original_text then "riwayah"
  else if hasTilawah original_text then "tilawah"
  else "other"

/-- `TransmissionTerm.__init__` (lines 36-45): `none` models a pandas NA
cell. -/
def TransmissionTerm.ofCell (term_text : Option String) : TransmissionTerm :=
  let orig := match term_text with
    | some s => strTrim s
    | none => ""
  if orig = "" then
    { original_text := orig, terms := [], primary_classification := "unknown" }
  else
    let ts := extractTerms orig
    { original_text := orig, terms := ts,
      primary_classification := classifyTerms orig ts }

/-! ## Cell analyzer (`CellAnalyzer`, lines 88-118). -/

structure CellAnalyzer where
  is_empty : Bool
  analysis : Option TransmissionTerm
deriving Repr, DecidableEq

/-- `CellAnalyzer.__init__` (lines 91-101): empty means NA or `""`. -/
def CellAnalyzer.ofCell (cell_value : Option String) : CellAnalyzer :=
  let e := cell_value.isNone || cell_value == some ""
  if e then { is_empty := true, analysis := none }
  else { is_empty := false, analysis := some (TransmissionTerm.ofCell cell_value) }

/-- `CellAnalyzer.to_dict` (lines 114-118). -/
def CellAnalyzer.toDict (c : CellAnalyzer) : Option TransmissionTerm :=
  if c.is_empty then none else c.analysis

/-! ## Graph assembler (`generate_network_data`, lines 199-444). -/

/-- One entry of `isnad_data["paths"]`: the dictionary built by
`process_isnad_network` (lines 612-619) and consumed by
`generate_network_data`.  A missing key is `none`; `names` holds the
populated name cells, `term_analysis` the per-column analysis dict
(`none` value models a `None` entry). -/
structure PathRec where
  path_id : Option String
  isnad_id : Option String
  names : List (String × String)
  term_analysis : List (String × Option TransmissionTerm)
  metadata : List (String × String)
deriving Repr, DecidableEq

structure Node where
  id : String
  name : String
  type : String
deriving Repr, DecidableEq

structure Edge where
  id : String
  source : String
  target : String
  type : String
  label : Option String
  terms : Option (List String)
  reader : String
  transmitter : String
  path : String
  mode : String
  path_id : String
  isnad_id : String
deriving Repr, DecidableEq

structure PathSummary where
  path_id : String
  isnad_id : String
  nodes : List String
  edges : List String
  metadata : List (String × String)
deriving Repr, DecidableEq

structure Network where
  path_count : Nat
  source : String
  node_count : Nat
  edge_count : Nat
  paths_with_metadata : Option Nat
  nodes : List Node
  edges : List Edge
  paths : List PathSummary
deriving Repr, DecidableEq

/-- The mutable registries of the assembly loop: `node_dict`
(name → node id), `unique_edges` (the set of `(source, target, type)`
keys, kept in insertion order so that `len` matches), and the growing
`nodes` / `edges` output arrays. -/
structure Reg where
  node_dict : List (String × String)
  edge_keys : List (String × String × String)
  nodes : List Node
  edges : List Edge
deriving Repr, DecidableEq

def emptyReg : Reg := { node_dict := [], edge_keys := [], nodes := [], edges := [] }

def nodeIds (st : Reg) : List String := st.nodes.map (fun n => n.id)

def nodeNames (st : Reg) : List String := st.nodes.map (fun n => n.name)

def edgeIds (st : Reg) : List String := st.edges.map (fun e => e.id)

/-- `t_columns` (lines 306-308): sorted name-slot columns of one path. -/
def tColumns (p : PathRec) : List String :=
  sortCols ((p.names.map Prod.fst).filter
    (fun c => startsWithT c && c != "path_id" && c != "isnad_id"))

/-- `col in names and names[col]` (line 312): the populated name of a
slot column, `none` when absent or falsy (empty string). -/
def getName (p : PathRec) (c : String) : Option String :=
  match p.names.lookup c with
  | some n => if n = "" then none else some n
  | none => none

/-- Lines 336-340: the edge type from the source slot's term analysis,
`"unknown"` when the column is missing, `None`, or has a falsy
classification. -/
def edgeTypeOf (p : PathRec) (c : String) : String :=
  match p.term_analysis.lookup c with
  | some (some tt) =>
    if tt.primary_classification ≠ "" then tt.primary_classification else "unknown"
  | _ => "unknown"

/-- Lines 362-367: the optional `label` field of a new edge. -/
def edgeLabelOf (p : PathRec) (c : String) : Option String :=
  match p.term_analysis.lookup c with
  | some (some tt) => if tt.original_text ≠ "" then some tt.original_text else none
  | _ => none

/-- Lines 368-371: the optional `terms` field of a new edge. -/
def edgeTermsOf (p : PathRec) (c : String) : Option (List String) :=
  match p.term_analysis.lookup c with
  | some (some tt) => if tt.terms ≠ [] then some tt.terms else none
  | _ => none

/-- Lines 347-360: assemble a new edge record. -/
def mkEdge (eid sid tid ety : String) (p : PathRec) (c : String)
    (pid iid rd tr pinfo md : String) : Edge :=
  { id := eid, source := sid, target := tid, type := ety,
    label := edgeLabelOf p c, terms := edgeTermsOf p c,
    reader := rd, transmitter := tr, path := pinfo, mode := md,
    path_id := pid, isnad_id := iid }

/-- Lines 313-323: resolve/create the node of one populated name. -/
def nodeStep (st : Reg) (nm : String) : Reg :=
  if (st.node_dict.lookup nm).isSome then st
  else
    let nid := "n" ++ Nat.repr (st.node_dict.length + 1)
    { st with node_dict := st.node_dict ++ [(nm, nid)],
              nodes := st.nodes ++ [{ id := nid, name := nm, type := "transmitter" }] }

/-- Lines 328-376: the edge half of one slot iteration.  `nxt` is the
following column (`t_columns[i+1]`) when it exists.  Note the source's
`next_name in node_dict` guard (line 331): it runs before the next
slot's node is registered. -/
def edgeStep (p : PathRec) (pid iid rd tr pinfo md : String) (c : String)
    (sid : String) (nxt : Option String) (st : Reg) (pe : List String) :
    Reg × List String :=
  match nxt with
  | none => (st, pe)
  | some c2 =>
    match getName p c2 with
    | none => (st, pe)
    | some nm2 =>
      match st.node_dict.lookup nm2 with
      | none => (st, pe)
      | some tid =>
        let ety := edgeTypeOf p c
        let key := (sid, tid, ety)
        if key ∈ st.edge_keys then (st, pe)
        else
          let eid := "e" ++ Nat.repr (st.edge_keys.length + 1)
          ({ st with edge_keys := st.edge_keys ++ [key],
                     edges := st.edges ++ [mkEdge eid sid tid ety p c pid iid rd tr pinfo md] },
           pe ++ [eid])

/-- Lines 310-376: the loop over `t_columns`, carrying the registries
and the per-path node / edge id lists. -/
def procCols (p : PathRec) (pid iid rd tr pinfo md : String) :
    List String → Reg → List String → List String → Reg × List String × List String
  | [], st, pn, pe => (st, pn, pe)
  | c :: rest, st, pn, pe =>
    match getName p c with
    | none => procCols p pid iid rd tr pinfo md rest st pn pe
    | some nm =>
      let st1 := nodeStep st nm
      let sid := (st1.node_dict.lookup nm).getD ""
      let r2 := edgeStep p pid iid rd tr pinfo md c sid rest.head? st1 pe
      procCols p pid iid rd tr pinfo md rest r2.1 (pn ++ [sid]) r2.2

/-- Lines 278-380: process one path (with its position `idx`, used for
the `unknown_{idx}` fallback id) and produce its summary. -/
def procPath (idx : Nat) (p : PathRec) (st : Reg) : Reg × PathSummary :=
  let pid := p.path_id.getD ("unknown_" ++ Nat.repr idx)
  let iid := p.isnad_id.getD ""
  let rd := (p.metadata.lookup "Reader").getD ""
  let tr := (p.metadata.lookup "Transmitter").getD ""
  let pinfo := (p.metadata.lookup "Path").getD ""
  let md := (p.metadata.lookup "_mode").getD ""
  let r := procCols p pid iid rd tr pinfo md (tColumns p) st [] []
  (r.1, { path_id := pid, isnad_id := iid, nodes := r.2.1, edges := r.2.2,
          metadata := p.metadata })

/-- The fold over all paths; a summary is appended only when its node
list is non-empty (lines 378-380). -/
def foldPaths : Nat → List PathRec → Reg → List PathSummary → Reg × List PathSummary
  | _, [], st, acc => (st, acc)
  | idx, p :: rest, st, acc =>
    let r := procPath idx p st
    let acc2 := if r.2.nodes.isEmpty then acc else acc ++ [r.2]
    foldPaths (idx + 1) rest r.1 acc2

/-- `generate_network_data` (lines 199-444), without the file I/O.
`none` models `isnad_data is None`; `some paths` models a dictionary
whose `paths` entry is `paths`. -/
def generate_network_data (isnad_paths : Option (List PathRec)) : Network :=
  match isnad_paths with
  | none =>
    { path_count := 0, source := "Isnad Network Generator (Error Recovery)",
      node_count := 0, edge_count := 0, paths_with_metadata := none,
      nodes := [], edges := [], paths := [] }
  | some paths =>
    if paths.isEmpty then
      { path_count := paths.length, source := "Isnad Network Generator",
        node_count := 0, edge_count := 0, paths_with_metadata := none,
        nodes := [], edges := [], paths := [] }
    else
      let r := foldPaths 0 paths emptyReg []
      { path_count := paths.length, source := "Isnad Network Generator",
        node_count := r.1.nodes.length, edge_count := r.1.edges.length,
        paths_with_metadata :=
          if paths.any (fun p => !p.metadata.isEmpty) then
            some ((paths.filter (fun p => !p.metadata.isEmpty)).length)
          else none,
        nodes := r.1.nodes, edges := r.1.edges, paths := r.2 }

/-- The populated transmitter names of one path, in the slot order the
assembler visits them. -/
def pathNames (p : PathRec) : List String := (tColumns p).filterMap (getName p)

/-- All transmitter names observed across the populated slots of a path
sequence. -/
def observedNames (paths : List PathRec) : List String :=
  (paths.map pathNames).flatten

/-! ## Tabular model (pandas dataframes).  A row is an association list
column → cell, where a `none` cell is pandas NA; the column list is kept
separately for the `'path_id' in df.columns` checks. -/

def Row : Type := List (String × Option String)

instance : DecidableEq Row := by unfold Row; infer_instance

structure Table where
  cols : List String
  rows : List Row
deriving DecidableEq

/-- The `path_id` value of a row (`none` for NA or a missing column). -/
def rowIdOf (r : Row) : Option String := (List.lookup "path_id" r).join

/-- Generic first-occurrence accumulator (`pandas.unique` / the
first-seen registries). -/
def addOnce {α : Type} [DecidableEq α] (acc : List α) (x : α) : List α :=
  if x ∈ acc then acc else acc ++ [x]

/-! ## Chain-length comparison (`compare_chain_lengths`, lines 828-916). -/

structure Mismatch where
  path_id : Option String
  names_length : Nat
  trans_length : Nat
  difference : Int
deriving Repr, DecidableEq

/-- Lines 859-867: the sorted slot columns of a dataframe. -/
def tColsOf (cols : List String) : List String :=
  sortCols (cols.filter (fun c => startsWithT c && c != "path_id" && c != "isnad_id"))

/-- Lines 872: `names_df['path_id'].unique()`, in first-seen order
(pandas folds all NA values into one entry). -/
def uniqueIdsOf (t : Table) : List (Option String) :=
  (t.rows.map rowIdOf).foldl addOnce []

/-- Lines 876-877: `df[df['path_id'] == path_id]`; comparing against NA
matches nothing. -/
def matchingRows (t : Table) (id : Option String) : List Row :=
  match id with
  | none => []
  | some s => t.rows.filter (fun r => rowIdOf r == some s)

/-- Lines 888-893: count the slot columns whose cell is present, not NA
and not the empty string. -/
def countNonEmptyCells (tcols : List String) (r : Row) : Nat :=
  (tcols.filter (fun c =>
    match List.lookup c r with
    | some (some v) => v != ""
    | _ => false)).length

/-- `compare_chain_lengths` (lines 828-916), without the CSV report. -/
def compare_chain_lengths (names_df trans_df : Table) : List Mismatch :=
  if "path_id" ∉ names_df.cols ∨ "path_id" ∉ trans_df.cols then []
  else
    let name_t_cols := tColsOf names_df.cols
    let trans_t_cols := tColsOf trans_df.cols
    (uniqueIdsOf names_df).foldl (fun acc id =>
      match matchingRows names_df id, matchingRows trans_df id with
      | nr :: _, tr :: _ =>
        let names_count := countNonEmptyCells name_t_cols nr
        let trans_count := countNonEmptyCells trans_t_cols tr
        if names_count ≠ trans_count then
          acc ++ [{ path_id := id, names_length := names_count,
                    trans_length := trans_count,
                    difference := (names_count : Int) - (trans_count : Int) }]
        else acc
      | _, _ => acc) []

/-- The per-identifier outcome of the `compare_chain_lengths` loop body
(lines 874-902): `none` when either table has no matching row or the
counts agree, otherwise the mismatch record. -/
def recOf (names_df trans_df : Table) (id : Option String) : Option Mismatch :=
  match matchingRows names_df id, matchingRows trans_df id with
  | nr :: _, tr :: _ =>
    let names_count := countNonEmptyCells (tColsOf names_df.cols) nr
    let trans_count := countNonEmptyCells (tColsOf trans_df.cols) tr
    if names_count ≠ trans_count then
      some { path_id := id, names_length := names_count, trans_length := trans_count,
             difference := (names_count : Int) - (trans_count : Int) }
    else none
  | _, _ => none

/-! ## Dimension check and record filtering (lines 491-558). -/

/-- `check_dimensions` (lines 491-519), reduced to its `is_valid` flag. -/
def check_dimensions (names_df trans_df : Table) (metadata_df : Option Table) : Bool :=
  decide ("path_id" ∈ names_df.cols) &&
  decide ("path_id" ∈ trans_df.cols) &&
  (names_df.rows.length == trans_df.rows.length) &&
  (match metadata_df with
   | some m => decide ("path_id" ∈ m.cols)
   | none => true)

/-- Lines 532-533: the non-null identifier values of a table, in
first-seen order (`df[pd.notna(df['path_id'])]['path_id'].unique()`). -/
def validIdsOf (t : Table) : List String :=
  (t.rows.filterMap rowIdOf).foldl addOnce []

/-- Lines 536-544: `df['path_id'].isin(valid_ids)` where `valid_ids` is
the intersection of the two tables' non-null identifier sets; an NA
identifier is never in the set. -/
def keepRow (names_df trans_df : Table) (r : Row) : Bool :=
  match rowIdOf r with
  | some s => decide (s ∈ validIdsOf names_df ∧ s ∈ validIdsOf trans_df)
  | none => false

/-- `filter_invalid_records` (lines 522-549). -/
def filter_invalid_records (names_df trans_df : Table) (metadata_df : Option Table) :
    Table × Table × Option Table × Nat :=
  if "path_id" ∉ names_df.cols ∨ "path_id" ∉ trans_df.cols then
    (names_df, trans_df, metadata_df, 0)
  else
    let names2 := { names_df with rows := names_df.rows.filter (keepRow names_df trans_df) }
    let trans2 := { trans_df with rows := trans_df.rows.filter (keepRow names_df trans_df) }
    let meta2 := match metadata_df with
      | some m =>
        if "path_id" ∈ m.cols then
          some { m with rows := m.rows.filter (keepRow names_df trans_df) }
        else some m
      | none => none
    (names2, trans2, meta2, names_df.rows.length - names2.rows.length)

/-- Lines 552-558: the recovery step of `process_isnad_network` — filter
only when the dimension check failed and filtering was not skipped. -/
def applyFiltering (names_df trans_df : Table) (metadata_df : Option Table)
    (skip_filtering : Bool) : Table × Table × Option Table × Nat :=
  if !check_dimensions names_df trans_df metadata_df && !skip_filtering then
    filter_invalid_records names_df trans_df metadata_df
  else (names_df, trans_df, metadata_df, 0)

/-! ## Cell analysis pass (`IsnadAnalyzer.analyze_all_cells`,
lines 144-196) and the classification histogram (lines 583-590). -/

/-- Lines 138-139: the transmission slot columns of the terms table. -/
def transColumnsOf (t : Table) : List String :=
  t.cols.filter (fun c => startsWithT c && c != "path_id" && c != "isnad_id")

/-- Line 160: `row.get('path_id', idx)`, rendered as the string used in
the `f"{path_id}_{col}"` cell id. -/
def pathIdStr (idx : Nat) (r : Row) : String :=
  match List.lookup "path_id" r with
  | some (some v) => v
  | some none => "nan"
  | none => Nat.repr idx

/-- Python dict assignment `d[k] = v`: replace in place or append. -/
def dictInsert (d : List (String × CellAnalyzer)) (k : String) (v : CellAnalyzer) :
    List (String × CellAnalyzer) :=
  if (List.lookup k d).isSome then
    d.map (fun kv => if kv.1 == k then (kv.1, v) else kv)
  else d ++ [(k, v)]

/-- Lines 163-189: process the transmission columns of one row,
carrying `(cells_with_value_count, cell_analyses)`. -/
def analyzeRowCells (idx : Nat) (tcols : List String) (r : Row)
    (acc : Nat × List (String × CellAnalyzer)) : Nat × List (String × CellAnalyzer) :=
  tcols.foldl (fun a col =>
    match List.lookup col r with
    | some (some v) =>
      if v != "" then
        let cellId := pathIdStr idx r ++ "_" ++ col
        let ca := CellAnalyzer.ofCell (some v)
        (a.1 + 1, if ca.is_empty then a.2 else dictInsert a.2 cellId ca)
      else a
    | _ => a) acc

/-- The row loop of `analyze_all_cells` (chunking only affects memory,
not the visit order). -/
def analyzeRowsFrom (tcols : List String) :
    Nat → List Row → Nat × List (String × CellAnalyzer) → Nat × List (String × CellAnalyzer)
  | _, [], acc => acc
  | idx, r :: rest, acc =>
    analyzeRowsFrom tcols (idx + 1) rest (analyzeRowCells idx tcols r acc)

/-- `analyze_all_cells` over a terms table: the pair
`(cells_with_value_count, cell_analyses)`. -/
def analyzeAllCells (t : Table) : Nat × List (String × CellAnalyzer) :=
  analyzeRowsFrom (transColumnsOf t) 0 t.rows (0, [])

/-- `defaultdict(int)` increment. -/
def bump (h : List (String × Nat)) (k : String) : List (String × Nat) :=
  if (List.lookup k h).isSome then
    h.map (fun kv => if kv.1 == k then (kv.1, kv.2 + 1) else kv)
  else h ++ [(k, 1)]

/-- Lines 584-590: the by-classification histogram over the stored cell
analyses. -/
def byClassification (analyses : List (String × CellAnalyzer)) : List (String × Nat) :=
  analyses.foldl (fun h kv =>
    match kv.2.analysis with
    | some tt => bump h tt.primary_classification
    | none => h) []

def histTotal (h : List (String × Nat)) : Nat := (h.map (fun kv => kv.2)).sum

/-- The cell ids generated for one row's analyzed cells. -/
def rowCellIds (idx : Nat) (tcols : List String) (r : Row) : List String :=
  tcols.filterMap (fun col =>
    match List.lookup col r with
    | some (some v) => if v != "" then some (pathIdStr idx r ++ "_" ++ col) else none
    | _ => none)

def cellIdsFrom (tcols : List String) : Nat → List Row → List String
  | _, [] => []
  | idx, r :: rest => rowCellIds idx tcols r ++ cellIdsFrom tcols (idx + 1) rest

/-- All cell ids generated by `analyze_all_cells`, in visit order. -/
def analyzedCellIds (t : Table) : List String :=
  cellIdsFrom (transColumnsOf t) 0 t.rows

/-! ## Concrete inputs used by the claim theorems. -/

/-- A two-slot path t1="A", t2="B" whose t1 annotation is the
riwayah-indicator "حدثنا". -/
def pathAB (pid : String) : PathRec :=
  { path_id := some pid, isnad_id := some "i1",
    names := [("t1", "A"), ("t2", "B")],
    term_analysis := [("t1", some (TransmissionTerm.ofCell (some "حدثنا")))],
    metadata := [] }

/-- Scenario A of the spec: a single first path t1="A", t2="B". -/
def scenarioA : List PathRec := [pathAB "1"]

/-- Three successive paths with identical slots and annotation. -/
def scenarioRepeat : List PathRec := [pathAB "1", pathAB "2", pathAB "3"]

/-- The one edge the assembler produces on `scenarioRepeat` (created
while folding the second path). -/
def edgeE1 : Edge :=
  { id := "e1", source := "n1", target := "n2", type := "riwayah",
    label := some "حدثنا", terms := some ["حدثنا"], reader := "",
    transmitter := "", path := "", mode := "", path_id := "2", isnad_id := "i1" }

/-- A names table with one row of two populated slots. -/
def namesOneRow : Table :=
  { cols := ["path_id", "t1", "t2"],
    rows := [[("path_id", some "1"), ("t1", some "A"), ("t2", some "B")]] }

/-- A terms table with one row of one populated slot (same id). -/
def transOneRow : Table :=
  { cols := ["path_id", "t1", "t2"],
    rows := [[("path_id", some "1"), ("t1", some "x"), ("t2", none)]] }

/-- A 10-row names table with identifiers 1..10. -/
def namesTen : Table :=
  { cols := ["path_id", "t1"],
    rows := [[("path_id", some "1"), ("t1", some "A")],
             [("path_id", some "2"), ("t1", some "A")],
             [("path_id", some "3"), ("t1", some "A")],
             [("path_id", some "4"), ("t1", some "A")],
             [("path_id", some "5"), ("t1", some "A")],
             [("path_id", some "6"), ("t1", some "A")],
             [("path_id", some "7"), ("t1", some "A")],
             [("path_id", some "8"), ("t1", some "A")],
             [("path_id", some "9"), ("t1", some "A")],
             [("path_id", some "10"), ("t1", some "A")]] }

/-- A 9-row transmission-terms table with identifiers 1..9. -/
def transNine : Table :=
  { cols := ["path_id", "t1"],
    rows := [[("path_id", some "1"), ("t1", some "x")],
             [("path_id", some "2"), ("t1", some "x")],
             [("path_id", some "3"), ("t1", some "x")],
             [("path_id", some "4"), ("t1", some "x")],
             [("path_id", some "5"), ("t1", some "x")],
             [("path_id", some "6"), ("t1", some "x")],
             [("path_id", some "7"), ("t1", some "x")],
             [("path_id", some "8"), ("t1", some "x")],
             [("path_id", some "9"), ("t1", some "x")]] }

/-- A terms table whose two rows share the identifier "1", so both
analyzed cells generate the same cell id `1_t1`. -/
def transDupIds : Table :=
  { cols := ["path_id", "t1"],
    rows := [[("path_id", some "1"), ("t1", some "حدثنا")],
             [("path_id", some "2"), ("t1", some "قرأت")],
             [("path_id", some "1"), ("t1", some "حدثنا")]] }

/-- A terms table with pairwise-distinct identifiers. -/
def transDistinctIds : Table :=
  { cols := ["path_id", "t1"],
    rows := [[("path_id", some "1"), ("t1", some "حدثنا")],
             [("path_id", some "2"), ("t1", some "قرأت")]] }

/-! ## Helper lemmas on association lists and first-occurrence folds. -/

theorem lookup_none_iff {β : Type} {d : List (String × β)} {k : String} :
    List.lookup k d = none ↔ k ∉ d.map Prod.fst := by
  induction d with
  | nil => simp
  | cons kv rest ih =>
    rcases kv with ⟨k0, v0⟩
    by_cases h : k = k0
    · subst h
      simp [List.lookup]
    · simp [List.lookup, beq_false_of_ne h, ih, h]

theorem lookup_mem_snd {β : Type} {d : List (String × β)} {k : String} {v : β}
    (h : List.lookup k d = some v) : v ∈ d.map Prod.snd := by
  induction d with
  | nil => simp [List.lookup] at h
  | cons kv rest ih =>
    rcases kv with ⟨k0, v0⟩
    by_cases hk : k = k0
    · subst hk
      simp [List.lookup] at h
      simp [h]
    · simp [List.lookup, beq_false_of_ne hk] at h
      simp [ih h]

theorem lookup_append_none {β : Type} {d : List (String × β)} {k : String}
    (h : List.lookup k d = none) (l : List (String × β)) :
    List.lookup k (d ++ l) = List.lookup k l := by
  induction d with
  | nil => simp
  | cons kv rest ih =>
    rcases kv with ⟨k0, v0⟩
    by_cases hk : k = k0
    · subst hk; simp [List.lookup] at h
    · simp only [List.lookup, beq_false_of_ne hk, List.cons_append] at h ⊢
      exact ih h

theorem lookup_append_some {β : Type} {d : List (String × β)} {k : String} {v : β}
    (h : List.lookup k d = some v) (l : List (String × β)) :
    List.lookup k (d ++ l) = some v := by
  induction d with
  | nil => simp [List.lookup] at h
  | cons kv rest ih =>
    rcases kv with ⟨k0, v0⟩
    by_cases hk : k = k0
    · subst hk; simp_all [List.lookup]
    · simp [List.lookup, beq_false_of_ne hk] at h ⊢
      exact ih h

theorem mem_addOnce {α : Type} [DecidableEq α] {acc : List α} {x y : α} :
    y ∈ addOnce acc x ↔ y ∈ acc ∨ y = x := by
  unfold addOnce
  split
  · rename_i hx
    constructor
    · exact fun h => Or.inl h
    · rintro (h | rfl)
      · exact h
      · exact hx
  · simp

theorem addOnce_nodup {α : Type} [DecidableEq α] {acc : List α} (h : acc.Nodup)
    (x : α) : (addOnce acc x).Nodup := by
  unfold addOnce
  split
  · exact h
  · rename_i hx
    simp [List.nodup_append, h, hx]

theorem mem_foldl_addOnce {α : Type} [DecidableEq α] (l : List α) (init : List α)
    (y : α) : y ∈ l.foldl addOnce init ↔ y ∈ init ∨ y ∈ l := by
  induction l generalizing init with
  | nil => simp
  | cons a rest ih =>
    simp only [List.foldl_cons, ih, mem_addOnce, List.mem_cons]
    tauto

theorem foldl_addOnce_nodup {α : Type} [DecidableEq α] (l : List α) (init : List α)
    (h : init.Nodup) : (l.foldl addOnce init).Nodup := by
  induction l generalizing init with
  | nil => exact h
  | cons a rest ih => exact ih _ (addOnce_nodup h a)

theorem length_foldl_addOnce_nil {α : Type} [DecidableEq α] (l : List α) :
    (l.foldl addOnce []).length = l.toFinset.card := by
  have hnd : (l.foldl addOnce []).Nodup := foldl_addOnce_nodup l [] List.nodup_nil
  have hmem : ∀ y, y ∈ l.foldl addOnce [] ↔ y ∈ l := by
    intro y; simpa using mem_foldl_addOnce l [] y
  have hts : (l.foldl addOnce []).toFinset = l.toFinset := by
    ext y; simp [List.mem_toFinset, hmem]
  calc (l.foldl addOnce []).length = (l.foldl addOnce []).toFinset.card :=
        (List.toFinset_card_of_nodup hnd).symm
    _ = l.toFinset.card := by rw [hts]

/-! ## The assembly-loop invariant. -/

/-- Invariant of the registries: the dictionaries mirror the output
arrays, names and edge keys are never duplicated, and ids are the
sequential `n1, n2, …` / `e1, e2, …` in first-seen order. -/
structure RegInv (st : Reg) : Prop where
  nd : st.node_dict = st.nodes.map (fun n => (n.name, n.id))
  ek : st.edge_keys = st.edges.map (fun e => (e.source, e.target, e.type))
  keysNodup : st.edge_keys.Nodup
  namesNodup : (nodeNames st).Nodup
  seqN : st.nodes.map (fun n => n.id) =
    (List.range st.nodes.length).map (fun i => "n" ++ Nat.repr (i + 1))
  seqE : st.edges.map (fun e => e.id) =
    (List.range st.edges.length).map (fun i => "e" ++ Nat.repr (i + 1))
  ends : ∀ e ∈ st.edges, e.source ∈ nodeIds st ∧ e.target ∈ nodeIds st

theorem emptyReg_inv : RegInv emptyReg := by
  constructor <;> simp [emptyReg, nodeNames, nodeIds]

theorem RegInv.dict_keys {st : Reg} (h : RegInv st) :
    st.node_dict.map Prod.fst = nodeNames st := by
  rw [h.nd, List.map_map]; rfl

theorem RegInv.dict_vals {st : Reg} (h : RegInv st) :
    st.node_dict.map Prod.snd = nodeIds st := by
  rw [h.nd, List.map_map]; rfl

theorem RegInv.dict_length {st : Reg} (h : RegInv st) :
    st.node_dict.length = st.nodes.length := by
  rw [h.nd, List.length_map]

theorem RegInv.keys_length {st : Reg} (h : RegInv st) :
    st.edge_keys.length = st.edges.length := by
  rw [h.ek, List.length_map]

theorem nodeStep_node_dict_ne (st : Reg) (nm : String)
    (h : (List.lookup nm st.node_dict).isSome = false) :
    nodeStep st nm = { st with
      node_dict := st.node_dict ++ [(nm, "n" ++ Nat.repr (st.node_dict.length + 1))],
      nodes := st.nodes ++ [{ id := "n" ++ Nat.repr (st.node_dict.length + 1),
                              name := nm, type := "transmitter" }] } := by
  unfold nodeStep
  simp [h]

theorem nodeStep_edges (st : Reg) (nm : String) :
    (nodeStep st nm).edges = st.edges ∧ (nodeStep st nm).edge_keys = st.edge_keys := by
  unfold nodeStep
  split <;> simp

theorem nodeStep_nodes_append (st : Reg) (nm : String) :
    ∃ nn, (nodeStep st nm).nodes = st.nodes ++ nn := by
  unfold nodeStep
  split
  · exact ⟨[], by simp⟩
  · exact ⟨_, rfl⟩

theorem nodeStep_inv {st : Reg} (h : RegInv st) (nm : String) :
    RegInv (nodeStep st nm) := by
  unfold nodeStep
  split
  · exact h
  · rename_i hlk
    have hnone : List.lookup nm st.node_dict = none := by
      cases hx : List.lookup nm st.node_dict with
      | none => rfl
      | some v => rw [hx] at hlk; simp at hlk
    have hnm : nm ∉ nodeNames st := by
      have := lookup_none_iff.mp hnone
      rwa [h.dict_keys] at this
    have hlen : st.node_dict.length = st.nodes.length := h.dict_length
    refine ⟨?_, ?_, ?_, ?_, ?_, ?_, ?_⟩
    · simp [h.nd, hlen]
    · simpa using h.ek
    · simpa using h.keysNodup
    · simp only [nodeNames, List.map_append, List.map_cons, List.map_nil]
      rw [List.nodup_append]
      exact ⟨h.namesNodup, List.nodup_singleton _, by simpa [nodeNames] using hnm⟩
    · simp only [List.map_append, List.length_append, List.map_cons, List.map_nil,
        List.length_cons, List.length_nil]
      rw [h.seqN, hlen, List.range_succ]
      simp
    · simpa using h.seqE
    · intro e he
      simp only at he
      rcases (h.ends e he) with ⟨h1, h2⟩
      constructor <;> simp [nodeIds, List.map_append] <;>
        [exact Or.inl (by simpa [nodeIds] using h1);
         exact Or.inl (by simpa [nodeIds] using h2)]

theorem nodeStep_names {st : Reg} (h : RegInv st) (nm : String) :
    nodeNames (nodeStep st nm) = addOnce (nodeNames st) nm := by
  unfold nodeStep addOnce
  have hmem : (List.lookup nm st.node_dict).isSome = true ↔ nm ∈ nodeNames st := by
    rw [← h.dict_keys]
    cases hx : List.lookup nm st.node_dict with
    | none => simp [lookup_none_iff.mp hx]
    | some v =>
      simp only [Option.isSome_some, true_iff]
      by_contra hc
      rw [lookup_none_iff.mpr hc] at hx
      cases hx
  split
  · rename_i hs
    rw [if_pos (hmem.mp hs)]
  · rename_i hs
    have : nm ∉ nodeNames st := fun hc => hs (hmem.mpr hc)
    rw [if_neg this]
    simp [nodeNames]

theorem nodeStep_lookup {st : Reg} (h : RegInv st) (nm : String) :
    ∃ sid, List.lookup nm (nodeStep st nm).node_dict = some sid ∧
      sid ∈ nodeIds (nodeStep st nm) := by
  unfold nodeStep
  split
  · rename_i hs
    cases hx : List.lookup nm st.node_dict with
    | none => rw [hx] at hs; simp at hs
    | some v =>
      refine ⟨v, rfl, ?_⟩
      have := lookup_mem_snd hx
      rwa [h.dict_vals] at this
  · rename_i hs
    have hnone : List.lookup nm st.node_dict = none := by
      cases hx : List.lookup nm st.node_dict with
      | none => rfl
      | some v => rw [hx] at hs; simp at hs
    refine ⟨"n" ++ Nat.repr (st.node_dict.length + 1), ?_, ?_⟩
    · rw [lookup_append_none hnone]
      simp [List.lookup]
    · simp [nodeIds]

/-- Case analysis for `edgeStep`: either the registries are untouched,
or a fresh edge with the next sequential id is appended. -/
theorem edgeStep_shape (p : PathRec) (pid iid rd tr pinfo md c sid : String)
    (nxt : Option String) (st : Reg) (pe : List String) :
    edgeStep p pid iid rd tr pinfo md c sid nxt st pe = (st, pe) ∨
    ∃ tid, (∃ c2 nm2, nxt = some c2 ∧ getName p c2 = some nm2 ∧
        List.lookup nm2 st.node_dict = some tid) ∧
      (sid, tid, edgeTypeOf p c) ∉ st.edge_keys ∧
      edgeStep p pid iid rd tr pinfo md c sid nxt st pe =
        ({ st with edge_keys := st.edge_keys ++ [(sid, tid, edgeTypeOf p c)],
                   edges := st.edges ++
                     [mkEdge ("e" ++ Nat.repr (st.edge_keys.length + 1)) sid tid
                       (edgeTypeOf p c) p c pid iid rd tr pinfo md] },
         pe ++ ["e" ++ Nat.repr (st.edge_keys.length + 1)]) := by
  rcases nxt with _ | c2
  · left; simp [edgeStep]
  · rcases hg : getName p c2 with _ | nm2
    · left; simp [edgeStep, hg]
    · rcases hl : List.lookup nm2 st.node_dict with _ | tid
      · left; simp [edgeStep, hg, hl]
      · by_cases hk : (sid, tid, edgeTypeOf p c) ∈ st.edge_keys
        · left; simp [edgeStep, hg, hl, hk]
        · right
          exact ⟨tid, ⟨c2, nm2, rfl, hg, hl⟩, hk, by simp [edgeStep, hg, hl, hk]⟩

theorem edgeStep_nodes (p : PathRec) (pid iid rd tr pinfo md c sid : String)
    (nxt : Option String) (st : Reg) (pe : List String) :
    (edgeStep p pid iid rd tr pinfo md c sid nxt st pe).1.nodes = st.nodes ∧
    (edgeStep p pid iid rd tr pinfo md c sid nxt st pe).1.node_dict = st.node_dict := by
  rcases edgeStep_shape p pid iid rd tr pinfo md c sid nxt st pe with h | ⟨_, _, _, h⟩ <;>
    rw [h] <;> exact ⟨rfl, rfl⟩

theorem edgeStep_edges_append (p : PathRec) (pid iid rd tr pinfo md c sid : String)
    (nxt : Option String) (st : Reg) (pe : List String) :
    ∃ ne, (edgeStep p pid iid rd tr pinfo md c sid nxt st pe).1.edges = st.edges ++ ne := by
  rcases edgeStep_shape p pid iid rd tr pinfo md c sid nxt st pe with h | ⟨_, _, _, h⟩
  · exact ⟨[], by rw [h]; simp⟩
  · exact ⟨_, by rw [h]⟩

theorem edgeStep_inv {st : Reg} (h : RegInv st)
    (p : PathRec) (pid iid rd tr pinfo md c sid : String)
    (nxt : Option String) (pe : List String) (hsid : sid ∈ nodeIds st) :
    RegInv (edgeStep p pid iid rd tr pinfo md c sid nxt st pe).1 := by
  rcases edgeStep_shape p pid iid rd tr pinfo md c sid nxt st pe with
    heq | ⟨tid, ⟨c2, nm2, hn, hg, hl⟩, hk, heq⟩
  · rw [heq]; exact h
  · rw [heq]
    have htid : tid ∈ nodeIds st := by
      have := lookup_mem_snd hl
      rwa [h.dict_vals] at this
    have hklen : st.edge_keys.length = st.edges.length := h.keys_length
    refine ⟨?_, ?_, ?_, ?_, ?_, ?_, ?_⟩
    · simpa using h.nd
    · simp [h.ek, mkEdge]
    · simp [List.nodup_append, h.keysNodup, hk]
    · simpa [nodeNames] using h.namesNodup
    · simpa using h.seqN
    · simp only [List.map_append, List.length_append, List.map_cons, List.map_nil,
        List.length_cons, List.length_nil]
      rw [h.seqE, hklen, List.range_succ]
      simp [mkEdge]
    · intro e he
      simp only [List.mem_append, List.mem_singleton] at he
      rcases he with he | rfl
      · have := h.ends e he
        simpa [nodeIds] using this
      · exact ⟨by simpa [mkEdge, nodeIds] using hsid, by simpa [mkEdge, nodeIds] using htid⟩

theorem edgeStep_pe (p : PathRec) (pid iid rd tr pinfo md c sid : String)
    (nxt : Option String) (st : Reg) (pe : List String) :
    ∀ x ∈ (edgeStep p pid iid rd tr pinfo md c sid nxt st pe).2,
      x ∈ pe ∨ x ∈ edgeIds (edgeStep p pid iid rd tr pinfo md c sid nxt st pe).1 := by
  rcases edgeStep_shape p pid iid rd tr pinfo md c sid nxt st pe with
    heq | ⟨tid, ⟨c2, nm2, hn, hg, hl⟩, hk, heq⟩
  · rw [heq]; exact fun x hx => Or.inl hx
  · rw [heq]
    intro x hx
    simp only [List.mem_append, List.mem_singleton] at hx
    rcases hx with hx | rfl
    · exact Or.inl hx
    · refine Or.inr ?_
      simp [edgeIds, mkEdge]

theorem nodeIds_mono {st1 st2 : Reg} (h : ∃ nn, st2.nodes = st1.nodes ++ nn) :
    ∀ x ∈ nodeIds st1, x ∈ nodeIds st2 := by
  obtain ⟨nn, hnn⟩ := h
  intro x hx
  simp only [nodeIds, hnn, List.map_append, List.mem_append]
  exact Or.inl hx

theorem edgeIds_mono {st1 st2 : Reg} (h : ∃ ne, st2.edges = st1.edges ++ ne) :
    ∀ x ∈ edgeIds st1, x ∈ edgeIds st2 := by
  obtain ⟨ne, hne⟩ := h
  intro x hx
  simp only [edgeIds, hne, List.map_append, List.mem_append]
  exact Or.inl hx

/-- Master lemma for the slot loop: the invariant is preserved, nodes and
edges are only appended (never removed or rewritten), the registered names
evolve by first-occurrence insertion of the path's populated names, and
every id recorded into the per-path lists denotes an existing node/edge. -/
theorem procCols_spec (p : PathRec) (pid iid rd tr pinfo md : String) :
    ∀ (cols : List String) (st : Reg) (pn pe : List String), RegInv st →
      RegInv (procCols p pid iid rd tr pinfo md cols st pn pe).1
      ∧ (∃ nn, (procCols p pid iid rd tr pinfo md cols st pn pe).1.nodes = st.nodes ++ nn)
      ∧ (∃ ne, (procCols p pid iid rd tr pinfo md cols st pn pe).1.edges = st.edges ++ ne)
      ∧ nodeNames (procCols p pid iid rd tr pinfo md cols st pn pe).1 =
          (cols.filterMap (getName p)).foldl addOnce (nodeNames st)
      ∧ (∀ x ∈ (procCols p pid iid rd tr pinfo md cols st pn pe).2.1,
          x ∈ pn ∨ x ∈ nodeIds (procCols p pid iid rd tr pinfo md cols st pn pe).1)
      ∧ (∀ x ∈ (procCols p pid iid rd tr pinfo md cols st pn pe).2.2,
          x ∈ pe ∨ x ∈ edgeIds (procCols p pid iid rd tr pinfo md cols st pn pe).1) := by
  intro cols
  induction cols with
  | nil =>
    intro st pn pe h
    simp only [procCols, List.filterMap_nil, List.foldl_nil]
    exact ⟨h, ⟨[], by simp⟩, ⟨[], by simp⟩, by trivial,
      fun x hx => Or.inl hx, fun x hx => Or.inl hx⟩
  | cons c rest ih =>
    intro st pn pe h
    cases hg : getName p c with
    | none =>
      simp only [procCols, hg, List.filterMap_cons]
      exact ih st pn pe h
    | some nm =>
      simp only [procCols, hg, List.filterMap_cons]
      obtain ⟨sid, hlk, hsidmem⟩ := nodeStep_lookup h nm
      rw [hlk]
      simp only [Option.getD_some]
      have hInv1 : RegInv (nodeStep st nm) := nodeStep_inv h nm
      have hn1 : ∃ nn, (nodeStep st nm).nodes = st.nodes ++ nn := nodeStep_nodes_append st nm
      have he1 := nodeStep_edges st nm
      have hnames1 : nodeNames (nodeStep st nm) = addOnce (nodeNames st) nm :=
        nodeStep_names h nm
      have hInv2 : RegInv (edgeStep p pid iid rd tr pinfo md c sid rest.head?
          (nodeStep st nm) pe).1 :=
        edgeStep_inv hInv1 p pid iid rd tr pinfo md c sid rest.head? pe hsidmem
      have hr2nodes := edgeStep_nodes p pid iid rd tr pinfo md c sid rest.head?
        (nodeStep st nm) pe
      have hr2edges := edgeStep_edges_append p pid iid rd tr pinfo md c sid rest.head?
        (nodeStep st nm) pe
      have hr2pe := edgeStep_pe p pid iid rd tr pinfo md c sid rest.head?
        (nodeStep st nm) pe
      obtain ⟨ihInv, ⟨nnB, hnB⟩, ⟨neB, heB⟩, ihNames, ihPn, ihPe⟩ :=
        ih (edgeStep p pid iid rd tr pinfo md c sid rest.head? (nodeStep st nm) pe).1
          (pn ++ [sid])
          (edgeStep p pid iid rd tr pinfo md c sid rest.head? (nodeStep st nm) pe).2 hInv2
      refine ⟨ihInv, ?_, ?_, ?_, ?_, ?_⟩
      · obtain ⟨nnA, hA⟩ := hn1
        exact ⟨nnA ++ nnB, by rw [hnB, hr2nodes.1, hA, List.append_assoc]⟩
      · obtain ⟨neA, hA⟩ := hr2edges
        exact ⟨neA ++ neB, by rw [heB, hA, he1.1, List.append_assoc]⟩
      · rw [ihNames, List.foldl_cons]
        congr 1
        have : nodeNames (edgeStep p pid iid rd tr pinfo md c sid rest.head?
            (nodeStep st nm) pe).1 = nodeNames (nodeStep st nm) := by
          simp only [nodeNames, hr2nodes.1]
        rw [this, hnames1]
      · intro x hx
        rcases ihPn x hx with hxp | hxi
        · rcases List.mem_append.mp hxp with hxp | hxs
          · exact Or.inl hxp
          · refine Or.inr ?_
            have hsid2 : sid ∈ nodeIds (edgeStep p pid iid rd tr pinfo md c sid rest.head?
                (nodeStep st nm) pe).1 := by
              have : nodeIds (edgeStep p pid iid rd tr pinfo md c sid rest.head?
                  (nodeStep st nm) pe).1 = nodeIds (nodeStep st nm) := by
                simp only [nodeIds, hr2nodes.1]
              rw [this]
              exact hsidmem
            have := nodeIds_mono ⟨nnB, hnB⟩ sid hsid2
            simpa [List.mem_singleton.mp hxs] using this
        · exact Or.inr hxi
      · intro x hx
        rcases ihPe x hx with hxp | hxi
        · rcases hr2pe x hxp with hxp | hxe
          · exact Or.inl hxp
          · exact Or.inr (edgeIds_mono ⟨neB, heB⟩ x hxe)
        · exact Or.inr hxi

theorem procPath_spec (idx : Nat) (p : PathRec) (st : Reg) (h : RegInv st) :
    RegInv (procPath idx p st).1
    ∧ (∃ nn, (procPath idx p st).1.nodes = st.nodes ++ nn)
    ∧ (∃ ne, (procPath idx p st).1.edges = st.edges ++ ne)
    ∧ nodeNames (procPath idx p st).1 = (pathNames p).foldl addOnce (nodeNames st)
    ∧ (∀ x ∈ (procPath idx p st).2.nodes, x ∈ nodeIds (procPath idx p st).1)
    ∧ (∀ x ∈ (procPath idx p st).2.edges, x ∈ edgeIds (procPath idx p st).1) := by
  obtain ⟨h1, h2, h3, h4, h5, h6⟩ := procCols_spec p
    (p.path_id.getD ("unknown_" ++ Nat.repr idx)) (p.isnad_id.getD "")
    ((List.lookup "Reader" p.metadata).getD "") ((List.lookup "Transmitter" p.metadata).getD "")
    ((List.lookup "Path" p.metadata).getD "") ((List.lookup "_mode" p.metadata).getD "")
    (tColumns p) st [] [] h
  simp only [procPath]
  refine ⟨h1, h2, h3, by simpa [pathNames] using h4, ?_, ?_⟩
  · intro x hx
    rcases h5 x hx with hn | hm
    · exact absurd hn (List.not_mem_nil x)
    · exact hm
  · intro x hx
    rcases h6 x hx with hn | hm
    · exact absurd hn (List.not_mem_nil x)
    · exact hm

theorem foldPaths_spec :
    ∀ (paths : List PathRec) (idx : Nat) (st : Reg) (acc : List PathSummary),
      RegInv st →
      (∀ s ∈ acc, (∀ x ∈ s.nodes, x ∈ nodeIds st) ∧ (∀ x ∈ s.edges, x ∈ edgeIds st)) →
      RegInv (foldPaths idx paths st acc).1
      ∧ (∃ nn, (foldPaths idx paths st acc).1.nodes = st.nodes ++ nn)
      ∧ (∃ ne, (foldPaths idx paths st acc).1.edges = st.edges ++ ne)
      ∧ nodeNames (foldPaths idx paths st acc).1 =
          (observedNames paths).foldl addOnce (nodeNames st)
      ∧ (∀ s ∈ (foldPaths idx paths st acc).2,
          (∀ x ∈ s.nodes, x ∈ nodeIds (foldPaths idx paths st acc).1) ∧
          (∀ x ∈ s.edges, x ∈ edgeIds (foldPaths idx paths st acc).1)) := by
  intro paths
  induction paths with
  | nil =>
    intro idx st acc h hacc
    simp only [foldPaths]
    exact ⟨h, ⟨[], by simp⟩, ⟨[], by simp⟩, by simp [observedNames], hacc⟩
  | cons p rest ih =>
    intro idx st acc h hacc
    simp only [foldPaths]
    obtain ⟨p1, p2, p3, p4, p5, p6⟩ := procPath_spec idx p st h
    have hacc2 : ∀ s ∈ (if (procPath idx p st).2.nodes.isEmpty then acc
          else acc ++ [(procPath idx p st).2]),
        (∀ x ∈ s.nodes, x ∈ nodeIds (procPath idx p st).1) ∧
        (∀ x ∈ s.edges, x ∈ edgeIds (procPath idx p st).1) := by
      have hold : ∀ s ∈ acc,
          (∀ x ∈ s.nodes, x ∈ nodeIds (procPath idx p st).1) ∧
          (∀ x ∈ s.edges, x ∈ edgeIds (procPath idx p st).1) := fun s hs =>
        ⟨fun x hx => nodeIds_mono p2 x ((hacc s hs).1 x hx),
         fun x hx => edgeIds_mono p3 x ((hacc s hs).2 x hx)⟩
      intro s hs
      by_cases hemp : (procPath idx p st).2.nodes.isEmpty
      · rw [if_pos hemp] at hs
        exact hold s hs
      · rw [if_neg hemp] at hs
        rcases List.mem_append.mp hs with hs | hs
        · exact hold s hs
        · rw [List.mem_singleton.mp hs]
          exact ⟨p5, p6⟩
    obtain ⟨i1, ⟨nnB, hnB⟩, ⟨neB, heB⟩, i4, i5⟩ :=
      ih (idx + 1) (procPath idx p st).1 _ p1 hacc2
    refine ⟨i1, ?_, ?_, ?_, i5⟩
    · obtain ⟨nnA, hA⟩ := p2
      exact ⟨nnA ++ nnB, by rw [hnB, hA, List.append_assoc]⟩
    · obtain ⟨neA, hA⟩ := p3
      exact ⟨neA ++ neB, by rw [heB, hA, List.append_assoc]⟩
    · rw [i4, p4]
      simp [observedNames, List.foldl_append]

theorem foldPaths_append :
    ∀ (ps rest : List PathRec) (idx : Nat) (st : Reg) (acc : List PathSummary),
      foldPaths idx (ps ++ rest) st acc =
        foldPaths (idx + ps.length) rest (foldPaths idx ps st acc).1
          (foldPaths idx ps st acc).2 := by
  intro ps
  induction ps with
  | nil =>
    intro rest idx st acc
    simp [foldPaths]
  | cons p ps ih =>
    intro rest idx st acc
    simp only [List.cons_append, foldPaths, List.append_eq]
    rw [ih]
    have harith : idx + (p :: ps).length = idx + 1 + ps.length := by
      simp [List.length_cons]
      omega
    rw [harith]

/-- The fields of the generated network all come from the path fold (the
empty-input short cut produces the same empty values the fold would). -/
theorem generate_network_fields (paths : List PathRec) :
    (generate_network_data (some paths)).nodes = (foldPaths 0 paths emptyReg []).1.nodes ∧
    (generate_network_data (some paths)).edges = (foldPaths 0 paths emptyReg []).1.edges ∧
    (generate_network_data (some paths)).paths = (foldPaths 0 paths emptyReg []).2 ∧
    (generate_network_data (some paths)).node_count =
      (foldPaths 0 paths emptyReg []).1.nodes.length ∧
    (generate_network_data (some paths)).edge_count =
      (foldPaths 0 paths emptyReg []).1.edges.length := by
  by_cases hemp : paths.isEmpty
  · rw [List.isEmpty_iff] at hemp
    subst hemp
    simp [generate_network_data, foldPaths, emptyReg]
  · simp [generate_network_data, List.isEmpty_iff, hemp,
      (by simpa [List.isEmpty_iff] using hemp : ¬paths = [])]

/-- The final fold state of a network generation run. -/
theorem generate_fold_facts (paths : List PathRec) :
    RegInv (foldPaths 0 paths emptyReg []).1
    ∧ nodeNames (foldPaths 0 paths emptyReg []).1 =
        (observedNames paths).foldl addOnce []
    ∧ (∀ s ∈ (foldPaths 0 paths emptyReg []).2,
        (∀ x ∈ s.nodes, x ∈ nodeIds (foldPaths 0 paths emptyReg []).1) ∧
        (∀ x ∈ s.edges, x ∈ edgeIds (foldPaths 0 paths emptyReg []).1)) := by
  obtain ⟨h1, _, _, h4, h5⟩ := foldPaths_spec paths 0 emptyReg [] emptyReg_inv (by simp)
  refine ⟨h1, ?_, h5⟩
  simpa [nodeNames, emptyReg] using h4

/-! ## Extension (append-only) behaviour of the generator. -/

theorem generate_extends (ps rest : List PathRec) :
    (∃ more, (generate_network_data (some (ps ++ rest))).nodes =
      (generate_network_data (some ps)).nodes ++ more) ∧
    (∃ more, (generate_network_data (some (ps ++ rest))).edges =
      (generate_network_data (some ps)).edges ++ more) := by
  obtain ⟨hn, he, _, _, _⟩ := generate_network_fields ps
  obtain ⟨hn2, he2, _, _, _⟩ := generate_network_fields (ps ++ rest)
  rw [hn, he, hn2, he2, foldPaths_append]
  obtain ⟨invS, _, hvalid⟩ := generate_fold_facts ps
  obtain ⟨_, ⟨nn, hnn⟩, ⟨ne, hne⟩, _, _⟩ :=
    foldPaths_spec rest (0 + ps.length) (foldPaths 0 ps emptyReg []).1
      (foldPaths 0 ps emptyReg []).2 invS hvalid
  exact ⟨⟨nn, hnn⟩, ⟨ne, hne⟩⟩

/-! ## Claim theorems. -/

/-- Claim C1 (code-bug evaluation): on the very first path t1="A",
t2="B" with the riwayah annotation "حدثنا", the assembler creates nodes
n1 (A) and n2 (B) but produces no edge at all — the `next_name in
node_dict` guard on line 331 runs before the target slot's node is
registered, so the first occurrence of every hop whose target is a
never-before-seen name is silently dropped.  The claim (and spec
Scenario A) instead promises Edge e1 from n1 to n2 of type riwayah with
label "حدثنا". -/
theorem C1_first_path_edge_dropped :
    (generate_network_data (some scenarioA)).nodes =
      [{ id := "n1", name := "A", type := "transmitter" },
       { id := "n2", name := "B", type := "transmitter" }] ∧
    (generate_network_data (some scenarioA)).edges = [] ∧
    (generate_network_data (some scenarioA)).edge_count = 0 := by decide

/-- Claim C2 counterexample: with three successive identical A→B paths,
edge e1 is created while folding the second path; the third path then
yields the identical (n1, n2, riwayah) triple, no new edge is created,
but — contrary to the claim — the third path's summary does not
reference the existing id e1: its edges list is empty. -/
theorem C2_counterexample :
    (generate_network_data (some scenarioRepeat)).edges.map
      (fun e => (e.id, e.source, e.target, e.type)) = [("e1", "n1", "n2", "riwayah")] ∧
    (generate_network_data (some scenarioRepeat)).paths.map (fun s => s.edges) =
      [[], ["e1"], []] ∧
    (generate_network_data (some scenarioRepeat)).paths.map (fun s => s.path_id) =
      ["1", "2", "3"] := by decide

/-- Claim C2 (amended): no two edges of an assembled network share the
same (source, target, type) triple; edges are only ever appended, so a
later duplicate path creates no new edge and never overwrites the first
edge's metadata; but the duplicate-producing path's summary does NOT
reference the existing edge id (the duplicate hop is simply omitted from
its edges list).  The concrete conjuncts exhibit this on three identical
paths: one edge, created by path "2", metadata untouched by path "3",
and path "3"'s summary edge list empty. -/
theorem C2_edge_dedup_amended :
    (∀ paths : List PathRec,
      ((generate_network_data (some paths)).edges.map
        (fun e => (e.source, e.target, e.type))).Nodup)
    ∧ (∀ ps rest : List PathRec, ∃ more,
        (generate_network_data (some (ps ++ rest))).edges =
          (generate_network_data (some ps)).edges ++ more)
    ∧ (generate_network_data (some scenarioRepeat)).edge_count = 1
    ∧ (generate_network_data (some scenarioRepeat)).edges = [edgeE1]
    ∧ (generate_network_data (some scenarioRepeat)).paths.map (fun s => s.edges) =
        [[], ["e1"], []] := by
  refine ⟨?_, fun ps rest => (generate_extends ps rest).2, by decide, by decide, by decide⟩
  intro paths
  obtain ⟨_, he, _, _, _⟩ := generate_network_fields paths
  rw [he]
  obtain ⟨inv, _, _⟩ := generate_fold_facts paths
  rw [← inv.ek]
  exact inv.keysNodup

/-- Claim C3: the assembled network holds exactly one node per distinct
transmitter name observed across the populated slots of the input paths
(`len(nodes)` equals the number of such distinct names), node names are
never duplicated, and nodes are never removed while folding further
paths (the node array of a longer run extends that of a shorter run). -/
theorem C3_node_dedup :
    (∀ paths : List PathRec,
      (generate_network_data (some paths)).nodes.length =
        (observedNames paths).toFinset.card
      ∧ ((generate_network_data (some paths)).nodes.map (fun n => n.name)).Nodup)
    ∧ (∀ ps rest : List PathRec, ∃ more,
        (generate_network_data (some (ps ++ rest))).nodes =
          (generate_network_data (some ps)).nodes ++ more) := by
  refine ⟨?_, fun ps rest => (generate_extends ps rest).1⟩
  intro paths
  obtain ⟨hn, _, _, _, _⟩ := generate_network_fields paths
  obtain ⟨inv, hnames, _⟩ := generate_fold_facts paths
  constructor
  · rw [hn]
    have hlen : (foldPaths 0 paths emptyReg []).1.nodes.length =
        (nodeNames (foldPaths 0 paths emptyReg []).1).length := by
      simp [nodeNames]
    rw [hlen, hnames, length_foldl_addOnce_nil]
  · rw [hn]
    exact inv.namesNodup

/-- Claim C5: assembly is a pure function of the ordered path sequence
(running it twice gives identical results), node and edge ids are the
sequential strings n1, n2, … and e1, e2, … in first-seen order — not
derived from any hash — and earlier edges (with their first-occurrence
metadata) survive unchanged when further paths are folded. -/
theorem C5_determinism :
    (∀ paths : List PathRec,
      generate_network_data (some paths) = generate_network_data (some paths))
    ∧ (∀ paths : List PathRec,
        (generate_network_data (some paths)).nodes.map (fun n => n.id) =
          (List.range (generate_network_data (some paths)).nodes.length).map
            (fun i => "n" ++ Nat.repr (i + 1))
        ∧ (generate_network_data (some paths)).edges.map (fun e => e.id) =
          (List.range (generate_network_data (some paths)).edges.length).map
            (fun i => "e" ++ Nat.repr (i + 1)))
    ∧ (∀ ps rest : List PathRec, ∃ more,
        (generate_network_data (some (ps ++ rest))).edges =
          (generate_network_data (some ps)).edges ++ more) := by
  refine ⟨fun _ => rfl, ?_, fun ps rest => (generate_extends ps rest).2⟩
  intro paths
  obtain ⟨hn, he, _, _, _⟩ := generate_network_fields paths
  obtain ⟨inv, _, _⟩ := generate_fold_facts paths
  rw [hn, he]
  exact ⟨inv.seqN, inv.seqE⟩

/-- Claim C6: a `None` path collection and an empty path list both yield
a network with empty nodes, edges and paths sequences and zero
node/edge counts, rather than an error. -/
theorem C6_empty_input :
    (generate_network_data none).nodes = [] ∧
    (generate_network_data none).edges = [] ∧
    (generate_network_data none).paths = [] ∧
    (generate_network_data none).node_count = 0 ∧
    (generate_network_data none).edge_count = 0 ∧
    (generate_network_data (some [])).nodes = [] ∧
    (generate_network_data (some [])).edges = [] ∧
    (generate_network_data (some [])).paths = [] ∧
    (generate_network_data (some [])).node_count = 0 ∧
    (generate_network_data (some [])).edge_count = 0 := by decide

/-- Claim C10: referential integrity of the assembled network — every
edge's source and target are ids of nodes in the top-level node array,
and every id in a path summary's nodes (edges) list is the id of an
element of the top-level nodes (edges) array. -/
theorem C10_referential_integrity :
    ∀ paths : List PathRec,
      (∀ e ∈ (generate_network_data (some paths)).edges,
        e.source ∈ (generate_network_data (some paths)).nodes.map (fun n => n.id) ∧
        e.target ∈ (generate_network_data (some paths)).nodes.map (fun n => n.id))
      ∧ (∀ s ∈ (generate_network_data (some paths)).paths,
          (∀ x ∈ s.nodes,
            x ∈ (generate_network_data (some paths)).nodes.map (fun n => n.id)) ∧
          (∀ x ∈ s.edges,
            x ∈ (generate_network_data (some paths)).edges.map (fun e => e.id))) := by
  intro paths
  obtain ⟨hn, he, hp, _, _⟩ := generate_network_fields paths
  obtain ⟨inv, _, hsum⟩ := generate_fold_facts paths
  rw [hn, he, hp]
  constructor
  · exact fun e hee => inv.ends e hee
  · exact fun s hs => ⟨fun x hx => (hsum s hs).1 x hx, fun x hx => (hsum s hs).2 x hx⟩

/-- Witness for C10 at a concrete input: the single edge of the
three-identical-paths run has its endpoints among the node ids. -/
theorem C10_referential_integrity_witness :
    edgeE1.source ∈ (generate_network_data (some scenarioRepeat)).nodes.map (fun n => n.id) ∧
    edgeE1.target ∈ (generate_network_data (some scenarioRepeat)).nodes.map (fun n => n.id) :=
  (C10_referential_integrity scenarioRepeat).1 edgeE1 (by decide)

/-- Claim C4 counterexample: an all-whitespace cell is NOT empty by the
`CellAnalyzer` test (`pd.isna(cell) or cell == ""`), so it DOES yield a
term record — with empty `terms` and classification `"unknown"`, which
is outside {riwayah, tilawah, mixed, other} — contradicting the claim
that an all-whitespace cell yields no term record. -/
theorem C4_counterexample :
    (CellAnalyzer.ofCell (some " ")).toDict =
      some { original_text := "", terms := [], primary_classification := "unknown" } ∧
    ¬ (CellAnalyzer.ofCell (some " ")).toDict = none := by decide

/-- Claim C4 (amended): a null or truly empty cell yields no term
record; every other cell yields exactly one record, namely the analysis
of the cell text; when the post-split terms list is empty (all
whitespace, or delimiters only) its classification is `"unknown"`, and
when the terms list is non-empty the classification is determined by
the indicator lexicons (`mixed` if both matched, else `riwayah`, else
`tilawah`, else `other`) and lies in {riwayah, tilawah, mixed, other}. -/
theorem C4_classification_amended :
    ∀ cell : Option String,
      ((cell = none ∨ cell = some "") → (CellAnalyzer.ofCell cell).toDict = none)
      ∧ (∀ v, cell = some v → v ≠ "" →
          (CellAnalyzer.ofCell cell).toDict = some (TransmissionTerm.ofCell (some v))
          ∧ ((TransmissionTerm.ofCell (some v)).terms = [] →
              (TransmissionTerm.ofCell (some v)).primary_classification = "unknown")
          ∧ ((TransmissionTerm.ofCell (some v)).terms ≠ [] →
              (TransmissionTerm.ofCell (some v)).primary_classification =
                (if hasRiwayah (strTrim v) && hasTilawah (strTrim v) then "mixed"
                 else if hasRiwayah (strTrim v) then "riwayah"
                 else if hasTilawah (strTrim v) then "tilawah"
                 else "other")
              ∧ (TransmissionTerm.ofCell (some v)).primary_classification ∈
                  (["riwayah", "tilawah", "mixed", "other"] : List String))) := by
  intro cell
  constructor
  · rintro (rfl | rfl) <;> decide
  · rintro v rfl hv
    refine ⟨?_, ?_, ?_⟩
    · simp [CellAnalyzer.ofCell, CellAnalyzer.toDict, hv]
    · intro hts
      by_cases ho : strTrim v = ""
      · simp [TransmissionTerm.ofCell, ho]
      · have hts2 : extractTerms (strTrim v) = [] := by
          simpa [TransmissionTerm.ofCell, ho] using hts
        simp [TransmissionTerm.ofCell, ho, classifyTerms, hts2]
    · intro hts
      by_cases ho : strTrim v = ""
      · exact absurd (by simp [TransmissionTerm.ofCell, ho]) hts
      · have hts2 : ¬ extractTerms (strTrim v) = [] := by
          intro hx
          exact hts (by simp [TransmissionTerm.ofCell, ho, hx])
        have hcl : (TransmissionTerm.ofCell (some v)).primary_classification =
            (if hasRiwayah (strTrim v) && hasTilawah (strTrim v) then "mixed"
             else if hasRiwayah (strTrim v) then "riwayah"
             else if hasTilawah (strTrim v) then "tilawah"
             else "other") := by
          simp [TransmissionTerm.ofCell, ho, classifyTerms, hts2]
        refine ⟨hcl, ?_⟩
        rw [hcl]
        split_ifs <;> simp

/-- Witness for the amended C4 at a concrete riwayah cell. -/
theorem C4_classification_amended_witness :
    (CellAnalyzer.ofCell (some "حدثنا")).toDict =
      some (TransmissionTerm.ofCell (some "حدثنا")) ∧
    (TransmissionTerm.ofCell (some "حدثنا")).primary_classification ∈
      (["riwayah", "tilawah", "mixed", "other"] : List String) := by
  have h := (C4_classification_amended (some "حدثنا")).2 "حدثنا" rfl (by decide)
  exact ⟨h.1, (h.2.2 (by decide)).2⟩

/-! ## Histogram lemmas for the cell-analysis pass. -/

theorem dictInsert_fresh {d : List (String × CellAnalyzer)} {k : String}
    (h : k ∉ d.map Prod.fst) (v : CellAnalyzer) : dictInsert d k v = d ++ [(k, v)] := by
  unfold dictInsert
  rw [if_neg]
  rw [lookup_none_iff.mpr h]
  simp

theorem ofCell_not_empty {v : String} (hv : v ≠ "") :
    (CellAnalyzer.ofCell (some v)).is_empty = false ∧
    (CellAnalyzer.ofCell (some v)).analysis.isSome = true := by
  simp [CellAnalyzer.ofCell, hv]

theorem analyzeRowCells_spec (idx : Nat) (r : Row) :
    ∀ (tcols : List String) (acc : Nat × List (String × CellAnalyzer)),
      (acc.2.map Prod.fst ++ rowCellIds idx tcols r).Nodup →
      (∀ kv ∈ acc.2, kv.2.analysis.isSome = true) →
      (analyzeRowCells idx tcols r acc).2.map Prod.fst =
        acc.2.map Prod.fst ++ rowCellIds idx tcols r
      ∧ (analyzeRowCells idx tcols r acc).1 = acc.1 + (rowCellIds idx tcols r).length
      ∧ (analyzeRowCells idx tcols r acc).2.length =
          acc.2.length + (rowCellIds idx tcols r).length
      ∧ (∀ kv ∈ (analyzeRowCells idx tcols r acc).2, kv.2.analysis.isSome = true) := by
  intro tcols
  induction tcols with
  | nil =>
    intro acc hnd hsome
    simp only [analyzeRowCells, List.foldl_nil, rowCellIds, List.filterMap_nil]
    exact ⟨by simp, by simp, by simp, hsome⟩
  | cons c cs ih =>
    intro acc hnd hsome
    have hstep : analyzeRowCells idx (c :: cs) r acc = analyzeRowCells idx cs r
        (match List.lookup c r with
         | some (some v) =>
           if v != "" then
             (acc.1 + 1,
              if (CellAnalyzer.ofCell (some v)).is_empty then acc.2
              else dictInsert acc.2 (pathIdStr idx r ++ "_" ++ c) (CellAnalyzer.ofCell (some v)))
           else acc
         | _ => acc) := by
      simp only [analyzeRowCells, List.foldl_cons]
    have hrow : rowCellIds idx (c :: cs) r =
        (match List.lookup c r with
         | some (some v) =>
           if v != "" then (pathIdStr idx r ++ "_" ++ c) :: rowCellIds idx cs r
           else rowCellIds idx cs r
         | _ => rowCellIds idx cs r) := by
      simp only [rowCellIds, List.filterMap_cons]
      rcases hl : List.lookup c r with _ | ov
      · rfl
      · rcases ov with _ | v
        · rfl
        · by_cases hv : v != "" <;> simp [hv]
    rcases hl : List.lookup c r with _ | ov
    · rw [hstep, hrow]
      simp only [hl]
      exact ih acc (by rw [hrow] at hnd; simpa [hl] using hnd) hsome
    · rcases ov with _ | v
      · rw [hstep, hrow]
        simp only [hl]
        exact ih acc (by rw [hrow] at hnd; simpa [hl] using hnd) hsome
      · by_cases hv : (v != "") = true
        · have hvne : v ≠ "" := by simpa using hv
          have hfresh : (pathIdStr idx r ++ "_" ++ c) ∉ acc.2.map Prod.fst := by
            rw [hrow] at hnd
            simp only [hl, hv, if_true] at hnd
            have := (List.nodup_append.mp hnd).2.2
            intro hmem
            exact this hmem (List.mem_cons_self _ _)
          have hinsert := dictInsert_fresh hfresh (CellAnalyzer.ofCell (some v))
          have hooe := ofCell_not_empty hvne
          rw [hstep, hrow]
          simp only [hl, hv, if_true, hooe.1, Bool.false_eq_true, if_false]
          rw [hinsert]
          have hacc2some : ∀ kv ∈ acc.2 ++ [(pathIdStr idx r ++ "_" ++ c,
              CellAnalyzer.ofCell (some v))], kv.2.analysis.isSome = true := by
            intro kv hkv
            rcases List.mem_append.mp hkv with hkv | hkv
            · exact hsome kv hkv
            · rw [List.mem_singleton.mp hkv]
              exact hooe.2
          have hacc2nd : ((acc.2 ++ [(pathIdStr idx r ++ "_" ++ c,
                CellAnalyzer.ofCell (some v))]).map Prod.fst ++ rowCellIds idx cs r).Nodup := by
            rw [hrow] at hnd
            simp only [hl, hv, if_true] at hnd
            simpa [List.append_assoc] using hnd
          obtain ⟨k1, k2, k3, k4⟩ := ih (acc.1 + 1, acc.2 ++ [(pathIdStr idx r ++ "_" ++ c,
            CellAnalyzer.ofCell (some v))]) hacc2nd hacc2some
          refine ⟨?_, ?_, ?_, k4⟩
          · rw [k1]; simp [List.append_assoc]
          · rw [k2]; simp; omega
          · rw [k3]; simp; omega
        · have hvf : (v != "") = false := by
            cases hb : (v != "") with
            | true => exact absurd hb hv
            | false => rfl
          rw [hstep, hrow]
          simp only [hl, hvf, Bool.false_eq_true, if_false]
          exact ih acc (by rw [hrow] at hnd; simpa [hl, hvf] using hnd) hsome

theorem analyzeRowsFrom_spec (tcols : List String) :
    ∀ (rows : List Row) (idx : Nat) (acc : Nat × List (String × CellAnalyzer)),
      (acc.2.map Prod.fst ++ cellIdsFrom tcols idx rows).Nodup →
      (∀ kv ∈ acc.2, kv.2.analysis.isSome = true) →
      (analyzeRowsFrom tcols idx rows acc).1 = acc.1 + (cellIdsFrom tcols idx rows).length
      ∧ (analyzeRowsFrom tcols idx rows acc).2.length =
          acc.2.length + (cellIdsFrom tcols idx rows).length
      ∧ (∀ kv ∈ (analyzeRowsFrom tcols idx rows acc).2, kv.2.analysis.isSome = true) := by
  intro rows
  induction rows with
  | nil =>
    intro idx acc hnd hsome
    simp only [analyzeRowsFrom, cellIdsFrom]
    exact ⟨by simp, by simp, hsome⟩
  | cons r rest ih =>
    intro idx acc hnd hsome
    simp only [analyzeRowsFrom, cellIdsFrom] at hnd ⊢
    have hnd1 : (acc.2.map Prod.fst ++ rowCellIds idx tcols r).Nodup := by
      have hsub : (acc.2.map Prod.fst ++ rowCellIds idx tcols r).Sublist
          (acc.2.map Prod.fst ++ (rowCellIds idx tcols r ++ cellIdsFrom tcols (idx + 1) rest)) := by
        rw [← List.append_assoc]
        exact List.sublist_append_left _ _
      exact hnd.sublist hsub
    obtain ⟨r1, r2, r3, r4⟩ := analyzeRowCells_spec idx r tcols acc hnd1 hsome
    have hnd2 : ((analyzeRowCells idx tcols r acc).2.map Prod.fst ++
        cellIdsFrom tcols (idx + 1) rest).Nodup := by
      rw [r1]
      simpa [List.append_assoc] using hnd
    obtain ⟨i1, i2, i3⟩ := ih (idx + 1) (analyzeRowCells idx tcols r acc) hnd2 r4
    refine ⟨?_, ?_, i3⟩
    · rw [i1, r2]; simp; omega
    · rw [i2, r3]; simp; omega

theorem map_bump_no_match {r : List (String × Nat)} {k : String}
    (h : k ∉ r.map Prod.fst) :
    r.map (fun kv => if kv.1 == k then (kv.1, kv.2 + 1) else kv) = r := by
  induction r with
  | nil => rfl
  | cons kv rest ih =>
    have hk : ¬ kv.1 = k := fun hx => h (by simp [hx])
    have hrest : k ∉ rest.map Prod.fst := fun hx => h (by simp [hx])
    simp only [List.map_cons]
    rw [show (if kv.1 == k then (kv.1, kv.2 + 1) else kv) = kv from
      if_neg (by simp [hk]), ih hrest]

theorem sum_map_bump {r : List (String × Nat)} {k : String}
    (hnd : (r.map Prod.fst).Nodup) (hk : k ∈ r.map Prod.fst) :
    ((r.map (fun kv => if kv.1 == k then (kv.1, kv.2 + 1) else kv)).map Prod.snd).sum =
      (r.map Prod.snd).sum + 1 := by
  induction r with
  | nil => simp at hk
  | cons kv rest ih =>
    rw [List.map_cons] at hk hnd
    rw [List.nodup_cons] at hnd
    rcases List.mem_cons.mp hk with h1 | h1
    · subst h1
      simp only [List.map_cons]
      rw [show (if kv.1 == kv.1 then (kv.1, kv.2 + 1) else kv) = (kv.1, kv.2 + 1) from
        if_pos (by simp)]
      rw [map_bump_no_match hnd.1]
      simp only [List.map_cons, List.sum_cons]
      omega
    · have hne : ¬ kv.1 = k := fun hx => hnd.1 (hx ▸ h1)
      simp only [List.map_cons]
      rw [show (if kv.1 == k then (kv.1, kv.2 + 1) else kv) = kv from
        if_neg (by simp [hne])]
      simp only [List.map_cons, List.sum_cons]
      rw [ih hnd.2 h1]
      omega

theorem bump_keys {h : List (String × Nat)} {k : String} :
    (bump h k).map Prod.fst = h.map Prod.fst ∨
    ((bump h k).map Prod.fst = h.map Prod.fst ++ [k] ∧ k ∉ h.map Prod.fst) := by
  unfold bump
  split
  · left
    rw [List.map_map]
    apply List.map_congr_left
    intro kv _
    by_cases hk : kv.1 = k
    · simp only [Function.comp_apply]
      rw [show (if kv.1 == k then (kv.1, kv.2 + 1) else kv) = (kv.1, kv.2 + 1) from
        if_pos (by simp [hk])]
    · simp only [Function.comp_apply]
      rw [show (if kv.1 == k then (kv.1, kv.2 + 1) else kv) = kv from
        if_neg (by simp [hk])]
  · right
    rename_i hs
    have : List.lookup k h = none := by
      cases hx : List.lookup k h with
      | none => rfl
      | some v => rw [hx] at hs; simp at hs
    exact ⟨by simp, lookup_none_iff.mp this⟩

theorem bump_keys_nodup {h : List (String × Nat)} {k : String}
    (hnd : (h.map Prod.fst).Nodup) : ((bump h k).map Prod.fst).Nodup := by
  rcases bump_keys (h := h) (k := k) with hk | ⟨hk, hmem⟩
  · rw [hk]; exact hnd
  · rw [hk]
    simp [List.nodup_append, hnd, hmem]

theorem histTotal_bump {h : List (String × Nat)} (hnd : (h.map Prod.fst).Nodup)
    (k : String) : histTotal (bump h k) = histTotal h + 1 := by
  unfold bump histTotal
  split
  · rename_i hs
    have hmem : k ∈ h.map Prod.fst := by
      by_contra hc
      rw [lookup_none_iff.mpr hc] at hs
      simp at hs
    exact sum_map_bump hnd hmem
  · simp

theorem byClassification_total_aux :
    ∀ (d : List (String × CellAnalyzer)) (h : List (String × Nat)),
      (h.map Prod.fst).Nodup →
      (∀ kv ∈ d, kv.2.analysis.isSome = true) →
      histTotal (d.foldl (fun h kv =>
        match kv.2.analysis with
        | some tt => bump h tt.primary_classification
        | none => h) h) = histTotal h + d.length := by
  intro d
  induction d with
  | nil => intro h _ _; simp
  | cons kv rest ih =>
    intro h hnd hsome
    have hh : kv.2.analysis.isSome = true := hsome kv (List.mem_cons_self _ _)
    rcases ha : kv.2.analysis with _ | tt
    · rw [ha] at hh; simp at hh
    · simp only [List.foldl_cons, ha]
      rw [ih (bump h tt.primary_classification) (bump_keys_nodup hnd)
        (fun kv' hkv' => hsome kv' (List.mem_cons_of_mem _ hkv'))]
      rw [histTotal_bump hnd]
      simp
      omega

theorem byClassification_total {d : List (String × CellAnalyzer)}
    (hall : ∀ kv ∈ d, kv.2.analysis.isSome = true) :
    histTotal (byClassification d) = d.length := by
  unfold byClassification
  rw [byClassification_total_aux d [] (by simp) hall]
  simp [histTotal]

/-- Claim C9 counterexample: with two rows sharing path_id "1", the
histogram totals 2 while 3 cells were analyzed — the cell id `1_t1`
collides and the second analysis overwrites the first in the
`cell_analyses` dict, so the histogram does not count every classified
cell once. -/
theorem C9_counterexample :
    (analyzeAllCells transDupIds).1 = 3 ∧
    histTotal (byClassification (analyzeAllCells transDupIds).2) = 2 ∧
    ¬ histTotal (byClassification (analyzeAllCells transDupIds).2) =
        (analyzeAllCells transDupIds).1 := by decide

/-- Claim C9 (amended): the histogram counts every distinct generated
cell id (`f"{path_id}_{col}"`) exactly once; whenever the generated cell
ids are pairwise distinct — in particular when all path_id values are
distinct — its counts sum to the number of analyzed cells, independent
of the edge deduplication of the graph assembler. -/
theorem C9_histogram_amended :
    ∀ t : Table, (analyzedCellIds t).Nodup →
      histTotal (byClassification (analyzeAllCells t).2) = (analyzeAllCells t).1 := by
  intro t hnd
  obtain ⟨hcount, hlen, hsome⟩ := analyzeRowsFrom_spec (transColumnsOf t) t.rows 0 (0, [])
    (by simpa [analyzedCellIds] using hnd) (by simp)
  unfold analyzeAllCells
  rw [byClassification_total hsome, hlen, hcount]
  simp

/-- Witness for the amended C9: with distinct path ids the histogram
total equals the analyzed-cell count. -/
theorem C9_histogram_amended_witness :
    histTotal (byClassification (analyzeAllCells transDistinctIds).2) =
      (analyzeAllCells transDistinctIds).1 :=
  C9_histogram_amended transDistinctIds (by decide)

/-! ## Chain-length comparison lemmas. -/

theorem compare_eq (names_df trans_df : Table)
    (h1 : "path_id" ∈ names_df.cols) (h2 : "path_id" ∈ trans_df.cols) :
    compare_chain_lengths names_df trans_df =
      (uniqueIdsOf names_df).filterMap (recOf names_df trans_df) := by
  unfold compare_chain_lengths
  rw [if_neg (by simp [h1, h2])]
  suffices h : ∀ (ids : List (Option String)) (acc : List Mismatch),
      ids.foldl (fun acc id =>
        match matchingRows names_df id, matchingRows trans_df id with
        | nr :: _, tr :: _ =>
          let names_count := countNonEmptyCells (tColsOf names_df.cols) nr
          let trans_count := countNonEmptyCells (tColsOf trans_df.cols) tr
          if names_count ≠ trans_count then
            acc ++ [{ path_id := id, names_length := names_count,
                      trans_length := trans_count,
                      difference := (names_count : Int) - (trans_count : Int) }]
          else acc
        | _, _ => acc) acc =
      acc ++ ids.filterMap (recOf names_df trans_df) by
    simpa using h (uniqueIdsOf names_df) []
  intro ids
  induction ids with
  | nil => intro acc; simp
  | cons id rest ih =>
    intro acc
    simp only [List.foldl_cons, List.filterMap_cons]
    rw [ih]
    rcases hn : matchingRows names_df id with _ | ⟨nr, nrest⟩
    · rcases ht : matchingRows trans_df id with _ | ⟨tr, trest⟩ <;>
        simp [recOf, hn, ht]
    · rcases ht : matchingRows trans_df id with _ | ⟨tr, trest⟩
      · simp [recOf, hn, ht]
      · by_cases hc : countNonEmptyCells (tColsOf names_df.cols) nr ≠
            countNonEmptyCells (tColsOf trans_df.cols) tr
        · simp [recOf, hn, ht, hc]
        · simp [recOf, hn, ht, hc]

theorem recOf_path_id (names_df trans_df : Table) (id : Option String)
    (m : Mismatch) (h : recOf names_df trans_df id = some m) : m.path_id = id := by
  unfold recOf at h
  split at h
  · dsimp only at h
    split at h
    · injection h with h2
      rw [← h2]
    · cases h
  · cases h

theorem filter_filterMap_recOf_none (names_df trans_df : Table) (s : String) :
    ∀ ids : List (Option String), some s ∉ ids →
      ((ids.filterMap (recOf names_df trans_df)).filter
        (fun m => m.path_id == some s)) = [] := by
  intro ids
  induction ids with
  | nil => intro _; rfl
  | cons id rest ih =>
    intro hs
    have hid : id ≠ some s := fun hx => hs (hx ▸ List.mem_cons_self _ _)
    have hrest : some s ∉ rest := fun hx => hs (List.mem_cons_of_mem _ hx)
    simp only [List.filterMap_cons]
    rcases hr : recOf names_df trans_df id with _ | m
    · exact ih hrest
    · have hm : m.path_id = id := recOf_path_id names_df trans_df id m hr
      rw [List.filter_cons]
      rw [show (m.path_id == some s) = false from by
        rw [hm]; exact beq_false_of_ne hid]
      simp only [Bool.false_eq_true, if_false]
      exact ih hrest

theorem filter_filterMap_recOf_single (names_df trans_df : Table) (s : String)
    (m0 : Mismatch) (hrec : recOf names_df trans_df (some s) = some m0) :
    ∀ ids : List (Option String), ids.Nodup → some s ∈ ids →
      ((ids.filterMap (recOf names_df trans_df)).filter
        (fun m => m.path_id == some s)) = [m0] := by
  intro ids
  induction ids with
  | nil => intro _ h; cases h
  | cons id rest ih =>
    intro hnd hmem
    rw [List.nodup_cons] at hnd
    rcases List.mem_cons.mp hmem with h1 | h1
    · subst h1
      simp only [List.filterMap_cons, hrec]
      rw [List.filter_cons]
      rw [show (m0.path_id == some s) = true from by
        rw [recOf_path_id names_df trans_df (some s) m0 hrec]; simp]
      simp only [if_true]
      rw [filter_filterMap_recOf_none names_df trans_df s rest hnd.1]
    · have hid : id ≠ some s := fun hx => hnd.1 (hx ▸ h1)
      simp only [List.filterMap_cons]
      rcases hr : recOf names_df trans_df id with _ | m
      · exact ih hnd.2 h1
      · rw [List.filter_cons]
        rw [show (m.path_id == some s) = false from by
          rw [recOf_path_id names_df trans_df id m hr]; exact beq_false_of_ne hid]
        simp only [Bool.false_eq_true, if_false]
        exact ih hnd.2 h1

/-- Claim C7: (1) when for every identifier shared between the two tables
the non-empty-slot count of the first matching names row equals that of
the first matching transmission-terms row, the mismatch report is empty;
(2) each shared identifier with differing counts yields exactly one
record carrying {path_id, names_length, trans_length, difference}; and
(3) identifiers without a matching row in either table never appear in
the report. -/
theorem C7_chain_length_compare :
    (∀ names_df trans_df : Table,
      (∀ (s : String) (nr tr : Row),
        (matchingRows names_df (some s)).head? = some nr →
        (matchingRows trans_df (some s)).head? = some tr →
        countNonEmptyCells (tColsOf names_df.cols) nr =
          countNonEmptyCells (tColsOf trans_df.cols) tr) →
      compare_chain_lengths names_df trans_df = [])
    ∧ (∀ names_df trans_df : Table,
        "path_id" ∈ names_df.cols → "path_id" ∈ trans_df.cols →
        ∀ (s : String) (nr tr : Row), some s ∈ uniqueIdsOf names_df →
          (matchingRows names_df (some s)).head? = some nr →
          (matchingRows trans_df (some s)).head? = some tr →
          countNonEmptyCells (tColsOf names_df.cols) nr ≠
            countNonEmptyCells (tColsOf trans_df.cols) tr →
          (compare_chain_lengths names_df trans_df).filter
              (fun m => m.path_id == some s) =
            [{ path_id := some s,
               names_length := countNonEmptyCells (tColsOf names_df.cols) nr,
               trans_length := countNonEmptyCells (tColsOf trans_df.cols) tr,
               difference := (countNonEmptyCells (tColsOf names_df.cols) nr : Int) -
                 (countNonEmptyCells (tColsOf trans_df.cols) tr : Int) }])
    ∧ (∀ (names_df trans_df : Table) (s : String),
        (matchingRows names_df (some s) = [] ∨ matchingRows trans_df (some s) = []) →
        ∀ m ∈ compare_chain_lengths names_df trans_df, m.path_id ≠ some s) := by
  refine ⟨?_, ?_, ?_⟩
  · intro names_df trans_df hall
    by_cases hc : "path_id" ∈ names_df.cols ∧ "path_id" ∈ trans_df.cols
    · rw [compare_eq names_df trans_df hc.1 hc.2]
      rw [List.filterMap_eq_nil_iff]
      intro id _
      rcases id with _ | s
      · unfold recOf matchingRows
        rfl
      · unfold recOf
        rcases hn : matchingRows names_df (some s) with _ | ⟨nr, nrest⟩
        · rfl
        · rcases ht : matchingRows trans_df (some s) with _ | ⟨tr, trest⟩
          · rfl
          · have heq := hall s nr tr (by rw [hn]; rfl) (by rw [ht]; rfl)
            simp only [heq]
            rw [if_neg (by simp)]
    · unfold compare_chain_lengths
      rw [if_pos (by tauto)]
  · intro names_df trans_df h1 h2 s nr tr hmem hhn hht hne
    rw [compare_eq names_df trans_df h1 h2]
    have hnd : (uniqueIdsOf names_df).Nodup :=
      foldl_addOnce_nodup _ [] List.nodup_nil
    have hrec : recOf names_df trans_df (some s) =
        some { path_id := some s,
               names_length := countNonEmptyCells (tColsOf names_df.cols) nr,
               trans_length := countNonEmptyCells (tColsOf trans_df.cols) tr,
               difference := (countNonEmptyCells (tColsOf names_df.cols) nr : Int) -
                 (countNonEmptyCells (tColsOf trans_df.cols) tr : Int) } := by
      unfold recOf
      rcases hn : matchingRows names_df (some s) with _ | ⟨nr0, nrest⟩
      · rw [hn] at hhn; cases hhn
      · rcases ht : matchingRows trans_df (some s) with _ | ⟨tr0, trest⟩
        · rw [ht] at hht; cases hht
        · rw [hn] at hhn
          rw [ht] at hht
          cases hhn
          cases hht
          dsimp only
          rw [if_pos hne]
    exact filter_filterMap_recOf_single names_df trans_df s _ hrec
      (uniqueIdsOf names_df) hnd hmem
  · intro names_df trans_df s hmiss m hm heq
    by_cases hc : "path_id" ∈ names_df.cols ∧ "path_id" ∈ trans_df.cols
    · rw [compare_eq names_df trans_df hc.1 hc.2] at hm
      obtain ⟨id, _, hr⟩ := List.mem_filterMap.mp hm
      have hid : m.path_id = id := recOf_path_id names_df trans_df id m hr
      rw [heq] at hid
      rw [← hid] at hr
      unfold recOf at hr
      rcases hmiss with hmiss | hmiss
      · rw [hmiss] at hr
        simp at hr
      · rw [hmiss] at hr
        rcases hx : matchingRows names_df (some s) with _ | ⟨a, b⟩ <;>
          rw [hx] at hr <;> simp at hr
    · unfold compare_chain_lengths at hm
      rw [if_pos (by tauto)] at hm
      cases hm

/-- Witness for C7 at concrete tables: a shared identifier "1" with slot
counts 2 vs 1 yields exactly its mismatch record. -/
theorem C7_chain_length_compare_witness :
    (compare_chain_lengths namesOneRow transOneRow).filter
        (fun m => m.path_id == some "1") =
      [{ path_id := some "1", names_length := 2, trans_length := 1, difference := 1 }] := by
  have h := C7_chain_length_compare.2.1 namesOneRow transOneRow (by decide) (by decide)
    "1" [("path_id", some "1"), ("t1", some "A"), ("t2", some "B")]
    [("path_id", some "1"), ("t1", some "x"), ("t2", none)]
    (by decide) (by decide) (by decide) (by decide)
  exact h.trans (by decide)

/-! ## Record-filtering lemmas. -/

theorem mem_validIdsOf {t : Table} {s : String} :
    s ∈ validIdsOf t ↔ ∃ r ∈ t.rows, rowIdOf r = some s := by
  unfold validIdsOf
  rw [mem_foldl_addOnce]
  simp [List.mem_filterMap]

theorem keepRow_iff (names_df trans_df : Table) (r : Row) :
    keepRow names_df trans_df r = true ↔
      ∃ s, rowIdOf r = some s ∧
        (∃ rn ∈ names_df.rows, rowIdOf rn = some s) ∧
        (∃ rt ∈ trans_df.rows, rowIdOf rt = some s) := by
  unfold keepRow
  cases hid : rowIdOf r with
  | none => simp
  | some s =>
    simp only [decide_eq_true_eq, mem_validIdsOf]
    constructor
    · rintro ⟨h3, h4⟩
      exact ⟨s, rfl, h3, h4⟩
    · rintro ⟨s2, hs2, h3, h4⟩
      have : s2 = s := by
        injection hs2 with h
        exact h.symm
      subst this
      exact ⟨h3, h4⟩

/-- Claim C8: when the dimension check fails and filtering is not
skipped, the recovery restricts the names table, the terms table and
(when present, with the identifier column) the metadata table to the
rows whose identifier is non-null and occurs in both of the first two
tables; it reports the number of dropped (names) records; afterwards no
identifier value occurs in one of the two tables but not the other.
Concretely, a 10-row names table against a 9-row terms table (ids 1..10
vs 1..9) filters to two 9-row tables with identical identifier
sequences and one dropped record. -/
theorem C8_filtering :
    (∀ (names_df trans_df : Table) (metadata_df : Option Table),
      check_dimensions names_df trans_df metadata_df = false →
      "path_id" ∈ names_df.cols → "path_id" ∈ trans_df.cols →
      (applyFiltering names_df trans_df metadata_df false).1.rows =
          names_df.rows.filter (keepRow names_df trans_df)
      ∧ (applyFiltering names_df trans_df metadata_df false).2.1.rows =
          trans_df.rows.filter (keepRow names_df trans_df)
      ∧ (∀ m : Table, metadata_df = some m → "path_id" ∈ m.cols →
          (applyFiltering names_df trans_df metadata_df false).2.2.1 =
            some { cols := m.cols, rows := m.rows.filter (keepRow names_df trans_df) })
      ∧ (applyFiltering names_df trans_df metadata_df false).2.2.2 =
          names_df.rows.length -
            (applyFiltering names_df trans_df metadata_df false).1.rows.length
      ∧ (∀ r : Row, keepRow names_df trans_df r = true ↔
          ∃ s, rowIdOf r = some s ∧ (∃ rn ∈ names_df.rows, rowIdOf rn = some s)
            ∧ (∃ rt ∈ trans_df.rows, rowIdOf rt = some s))
      ∧ (∀ s : String,
          (∃ r ∈ (applyFiltering names_df trans_df metadata_df false).1.rows,
            rowIdOf r = some s) ↔
          (∃ r ∈ (applyFiltering names_df trans_df metadata_df false).2.1.rows,
            rowIdOf r = some s)))
    ∧ ((applyFiltering namesTen transNine none false).1.rows.length = 9
      ∧ (applyFiltering namesTen transNine none false).2.1.rows.length = 9
      ∧ (applyFiltering namesTen transNine none false).2.2.2 = 1
      ∧ (applyFiltering namesTen transNine none false).1.rows.map rowIdOf =
          (applyFiltering namesTen transNine none false).2.1.rows.map rowIdOf) := by
  constructor
  · intro names_df trans_df metadata_df hcd h1 h2
    have happ : applyFiltering names_df trans_df metadata_df false =
        filter_invalid_records names_df trans_df metadata_df := by
      unfold applyFiltering
      rw [hcd]
      rfl
    have hfir : filter_invalid_records names_df trans_df metadata_df =
        ({ cols := names_df.cols,
           rows := names_df.rows.filter (keepRow names_df trans_df) },
         { cols := trans_df.cols,
           rows := trans_df.rows.filter (keepRow names_df trans_df) },
         (match metadata_df with
          | some m =>
            if "path_id" ∈ m.cols then
              some { cols := m.cols, rows := m.rows.filter (keepRow names_df trans_df) }
            else some m
          | none => none),
         names_df.rows.length -
           (names_df.rows.filter (keepRow names_df trans_df)).length) := by
      unfold filter_invalid_records
      rw [if_neg (by simp [h1, h2])]
      cases metadata_df <;> rfl
    rw [happ, hfir]
    refine ⟨rfl, rfl, ?_, rfl, keepRow_iff names_df trans_df, ?_⟩
    · rintro m rfl hm
      simp only
      rw [if_pos hm]
    · intro s
      constructor
      · rintro ⟨r, hr, hid⟩
        obtain ⟨hrmem, hrkeep⟩ := List.mem_filter.mp hr
        obtain ⟨s2, hs2, hnmem, ⟨rt, hrt, hidt⟩⟩ :=
          (keepRow_iff names_df trans_df r).mp hrkeep
        rw [hid] at hs2
        injection hs2 with heq
        rw [← heq] at hidt hnmem
        refine ⟨rt, List.mem_filter.mpr ⟨hrt, ?_⟩, hidt⟩
        exact (keepRow_iff names_df trans_df rt).mpr ⟨s, hidt, hnmem, ⟨rt, hrt, hidt⟩⟩
      · rintro ⟨r, hr, hid⟩
        obtain ⟨hrmem, hrkeep⟩ := List.mem_filter.mp hr
        obtain ⟨s2, hs2, ⟨rn, hrn, hidn⟩, htmem⟩ :=
          (keepRow_iff names_df trans_df r).mp hrkeep
        rw [hid] at hs2
        injection hs2 with heq
        rw [← heq] at hidn htmem
        refine ⟨rn, List.mem_filter.mpr ⟨hrn, ?_⟩, hidn⟩
        exact (keepRow_iff names_df trans_df rn).mpr ⟨s, hidn, ⟨rn, hrn, hidn⟩, htmem⟩
  · exact ⟨by decide, by decide, by decide, by decide⟩

/-- Witness for C8 at the concrete 10-row / 9-row tables. -/
theorem C8_filtering_witness :
    (applyFiltering namesTen transNine none false).1.rows =
      namesTen.rows.filter (keepRow namesTen transNine) :=
  (C8_filtering.1 namesTen transNine none (by decide) (by decide) (by decide)).1

end Isnad
